import Mathlib

/-!
Verification development for the nutrition optimization engine of the
meal_planner repository.  The repository ships the optimizer's callers
(the demo notebook `nbs/integrated_demo.ipynb` and the READMEs) but the
module `nutrition_optimizer.py` itself is not among the sources, so the
engine below is modelled from the specification's component contracts
(spec.md §3, §4, §7) and, where the callers pin the shape (the fixed
four-field `ConstraintSet`), from those call sites.

Real quantities are modelled as rationals; nutrient names and food
identifiers are strings.
-/

namespace MealPlanner

/-- Modelled from the spec: `NutrientConstraint` — three numbers
`minimum ≤ target ≤ maximum` (§3); validity of that chain is checked
separately by the driver at call entry (§7). -/
structure NutrientConstraint where
  minimum : ℚ
  target : ℚ
  maximum : ℚ
deriving DecidableEq, Repr

/-- Modelled from the spec: `ConstraintSet` — a mapping from nutrient
name to `NutrientConstraint` (§3), represented as an association list. -/
abbrev ConstraintSet : Type := List (String × NutrientConstraint)

/-- Modelled from the spec: `NutrientVector` — a mapping from nutrient
name to an aggregated value (§3), represented as a total function. -/
abbrev NutrientVector : Type := String → ℚ

/-- Modelled from the spec: the Food Catalog — identifier → per-unit
nutrient profile (§2, §6), as an association list. -/
abbrev Catalog : Type := List (String × (String → ℚ))

/-- Modelled from the spec: `MealComposition` — a mapping from food
identifier to quantity (§3), as an association list; this is the
`foods` mapping of the notebook's `Meal`. -/
abbrev MealComposition : Type := List (String × ℚ)

/-- Modelled from the spec: the per-nutrient penalty of the Fitness
Evaluator (§4.2): hard penalty `W_hard × (min − v)` below the minimum,
hard penalty `W_hard × (v − max)` above the maximum, soft penalty
`W_soft × |v − target|` within bounds. -/
def penalty (Wh Ws : ℚ) (c : NutrientConstraint) (v : ℚ) : ℚ :=
  if v < c.minimum then Wh * (c.minimum - v)
  else if v > c.maximum then Wh * (v - c.maximum)
  else Ws * |v - c.target|

/-- Modelled from the spec: `calculate_fitness` (named after the
notebook's `optimizer.calculate_fitness`) — total fitness is the sum of
per-nutrient penalties across the nutrients of the `ConstraintSet`
(§4.2). -/
def calculate_fitness (Wh Ws : ℚ) (cs : ConstraintSet) (nv : NutrientVector) : ℚ :=
  (cs.map (fun nc => penalty Wh Ws nc.2 (nv nc.1))).sum

lemma penalty_nonneg {Wh Ws : ℚ} (hWh : 0 ≤ Wh) (hWs : 0 ≤ Ws)
    (c : NutrientConstraint) (v : ℚ) : 0 ≤ penalty Wh Ws c v := by
  unfold penalty
  split
  · have : 0 ≤ c.minimum - v := by linarith
    exact mul_nonneg hWh this
  · split
    · have : 0 ≤ v - c.maximum := by linarith
      exact mul_nonneg hWh this
    · exact mul_nonneg hWs (abs_nonneg _)

lemma calculate_fitness_nonneg {Wh Ws : ℚ} (hWh : 0 ≤ Wh) (hWs : 0 ≤ Ws)
    (cs : ConstraintSet) (nv : NutrientVector) :
    0 ≤ calculate_fitness Wh Ws cs nv := by
  unfold calculate_fitness
  apply List.sum_nonneg
  intro x hx
  rcases List.mem_map.mp hx with ⟨nc, _, rfl⟩
  exact penalty_nonneg hWh hWs nc.2 (nv nc.1)

lemma penalty_pos_of_ne_target {Wh Ws : ℚ} (hWh : 0 < Wh) (hWs : 0 < Ws)
    (c : NutrientConstraint) (v : ℚ) (hne : v ≠ c.target) :
    0 < penalty Wh Ws c v := by
  unfold penalty
  split
  · have : 0 < c.minimum - v := by linarith
    exact mul_pos hWh this
  · split
    · have : 0 < v - c.maximum := by linarith
      exact mul_pos hWh this
    · have : v - c.target ≠ 0 := sub_ne_zero_of_ne hne
      exact mul_pos hWs (abs_pos.mpr this)

lemma calculate_fitness_eq_zero_imp {Wh Ws : ℚ} (hWh : 0 < Wh) (hWs : 0 < Ws)
    (cs : ConstraintSet) (nv : NutrientVector)
    (h0 : calculate_fitness Wh Ws cs nv = 0) :
    ∀ nc ∈ cs, nv nc.1 = nc.2.target := by
  intro nc hmem
  by_contra hne
  have hterm : 0 < penalty Wh Ws nc.2 (nv nc.1) :=
    penalty_pos_of_ne_target hWh hWs nc.2 (nv nc.1) hne
  have hmemmap : penalty Wh Ws nc.2 (nv nc.1) ∈
      cs.map (fun nc => penalty Wh Ws nc.2 (nv nc.1)) :=
    List.mem_map.mpr ⟨nc, hmem, rfl⟩
  have hall : ∀ x ∈ cs.map (fun nc => penalty Wh Ws nc.2 (nv nc.1)), 0 ≤ x := by
    intro x hx
    rcases List.mem_map.mp hx with ⟨nc', _, rfl⟩
    exact penalty_nonneg (le_of_lt hWh) (le_of_lt hWs) nc'.2 (nv nc'.1)
  have hle := List.single_le_sum hall _ hmemmap
  unfold calculate_fitness at h0
  rw [h0] at hle
  linarith

lemma calculate_fitness_congr (Wh Ws : ℚ) (cs : ConstraintSet)
    (nv nv' : NutrientVector) (hagree : ∀ nc ∈ cs, nv nc.1 = nv' nc.1) :
    calculate_fitness Wh Ws cs nv = calculate_fitness Wh Ws cs nv' := by
  unfold calculate_fitness
  congr 1
  apply List.map_congr_left
  intro nc hmem
  rw [hagree nc hmem]

/-- C1: the Fitness Evaluator sums, over exactly the nutrients of the
`ConstraintSet`, the per-nutrient penalty — hard `W_hard × (min − v)`
below the minimum, hard `W_hard × (v − max)` above the maximum, soft
`W_soft × |v − target|` within bounds; the result is ≥ 0, and a result
of 0 forces every tracked nutrient exactly onto its target. -/
theorem fitness_evaluator_spec (Wh Ws : ℚ) (cs : ConstraintSet)
    (nv : NutrientVector) (hWh : 0 < Wh) (hWs : 0 < Ws) :
    calculate_fitness Wh Ws cs nv
        = (cs.map (fun nc => penalty Wh Ws nc.2 (nv nc.1))).sum
    ∧ (∀ c : NutrientConstraint, ∀ v : ℚ,
        (v < c.minimum → penalty Wh Ws c v = Wh * (c.minimum - v))
        ∧ (c.minimum ≤ c.maximum → v > c.maximum →
            penalty Wh Ws c v = Wh * (v - c.maximum))
        ∧ (c.minimum ≤ v → v ≤ c.maximum →
            penalty Wh Ws c v = Ws * |v - c.target|))
    ∧ 0 ≤ calculate_fitness Wh Ws cs nv
    ∧ (∀ nv' : NutrientVector, (∀ nc ∈ cs, nv nc.1 = nv' nc.1) →
        calculate_fitness Wh Ws cs nv = calculate_fitness Wh Ws cs nv')
    ∧ (calculate_fitness Wh Ws cs nv = 0 → ∀ nc ∈ cs, nv nc.1 = nc.2.target) := by
  refine ⟨rfl, ?_, calculate_fitness_nonneg (le_of_lt hWh) (le_of_lt hWs) cs nv,
    fun nv' h => calculate_fitness_congr Wh Ws cs nv nv' h,
    calculate_fitness_eq_zero_imp hWh hWs cs nv⟩
  intro c v
  refine ⟨fun hlt => ?_, fun hvalid hgt => ?_, fun hmin hmax => ?_⟩
  · unfold penalty
    rw [if_pos hlt]
  · unfold penalty
    rw [if_neg (by linarith), if_pos hgt]
  · unfold penalty
    rw [if_neg (by linarith), if_neg (by linarith)]

/-- C1 witness: the evaluator at a concrete constraint set and vector. -/
theorem fitness_evaluator_spec_witness :
    (0 : ℚ) < 10 ∧ (0 : ℚ) < 1 ∧
    0 ≤ calculate_fitness 10 1 [("calories", ⟨100, 150, 200⟩)] (fun _ => 150) ∧
    (calculate_fitness 10 1 [("calories", ⟨100, 150, 200⟩)] (fun _ => 150) = 0 →
      ∀ nc ∈ [(("calories", ⟨100, 150, 200⟩) : String × NutrientConstraint)],
        (fun _ => (150 : ℚ)) nc.1 = nc.2.target) :=
  ⟨by norm_num, by norm_num,
    (fitness_evaluator_spec 10 1 [("calories", ⟨100, 150, 200⟩)] (fun _ => 150)
      (by norm_num) (by norm_num)).2.2.1,
    (fitness_evaluator_spec 10 1 [("calories", ⟨100, 150, 200⟩)] (fun _ => 150)
      (by norm_num) (by norm_num)).2.2.2.2⟩

/-- The largest soft deviation from target that a value can attain while
staying inside the `[minimum, maximum]` band of a constraint. -/
def maxSoftDeviation (c : NutrientConstraint) : ℚ :=
  max (c.target - c.minimum) (c.maximum - c.target)

/-- Upper bound on the total soft penalty of any everywhere-in-bounds
nutrient vector under a constraint set. -/
def softPenaltyBound (Ws : ℚ) (cs : ConstraintSet) : ℚ :=
  Ws * (cs.map (fun nc => maxSoftDeviation nc.2)).sum

lemma penalty_le_soft_bound {Ws : ℚ} (Wh : ℚ) (hWs : 0 ≤ Ws)
    (c : NutrientConstraint) (v : ℚ) (hmin : c.minimum ≤ v) (hmax : v ≤ c.maximum) :
    penalty Wh Ws c v ≤ Ws * maxSoftDeviation c := by
  unfold penalty
  rw [if_neg (by linarith), if_neg (by linarith)]
  apply mul_le_mul_of_nonneg_left _ hWs
  rw [abs_sub_le_iff]
  constructor
  · calc v - c.target ≤ c.maximum - c.target := by linarith
    _ ≤ maxSoftDeviation c := le_max_right _ _
  · calc c.target - v ≤ c.target - c.minimum := by linarith
    _ ≤ maxSoftDeviation c := le_max_left _ _

lemma fitness_le_soft_bound {Wh Ws : ℚ} (hWs : 0 ≤ Ws) (cs : ConstraintSet)
    (B : NutrientVector) (hB : ∀ nc ∈ cs, nc.2.minimum ≤ B nc.1 ∧ B nc.1 ≤ nc.2.maximum) :
    calculate_fitness Wh Ws cs B ≤ softPenaltyBound Ws cs := by
  unfold calculate_fitness softPenaltyBound
  rw [← List.sum_map_mul_left]
  apply List.sum_le_sum
  intro nc hmem
  exact penalty_le_soft_bound Wh hWs nc.2 (B nc.1) (hB nc hmem).1 (hB nc hmem).2

lemma single_penalty_le_fitness {Wh Ws : ℚ} (hWh : 0 ≤ Wh) (hWs : 0 ≤ Ws)
    (cs : ConstraintSet) (A : NutrientVector) {nc : String × NutrientConstraint}
    (hmem : nc ∈ cs) :
    penalty Wh Ws nc.2 (A nc.1) ≤ calculate_fitness Wh Ws cs A := by
  unfold calculate_fitness
  apply List.single_le_sum
  · intro x hx
    rcases List.mem_map.mp hx with ⟨nc', _, rfl⟩
    exact penalty_nonneg hWh hWs nc'.2 (A nc'.1)
  · exact List.mem_map.mpr ⟨nc, hmem, rfl⟩

/-- C2 counterexample: with `W_hard = 100` two orders of magnitude above
`W_soft = 1`, a valid constraint band `[0, 1000]` with target `0`, a
vector `A` out of bounds by `1` and a vector `B` in bounds but `1000`
away from target give `fitness(A) = 100 < 1000 = fitness(B)`, refuting
the claimed ordering. -/
theorem bounds_ordering_counterexample :
    ((0 : ℚ) ≤ 0 ∧ (0 : ℚ) ≤ 1000)
    ∧ (100 : ℚ) = 100 * 1
    ∧ ((fun _ => (1001 : ℚ)) "calories" > (1000 : ℚ))
    ∧ ((0 : ℚ) ≤ (fun _ => (1000 : ℚ)) "calories"
        ∧ (fun _ => (1000 : ℚ)) "calories" ≤ (1000 : ℚ))
    ∧ ¬ (calculate_fitness 100 1 [("calories", ⟨0, 0, 1000⟩)] (fun _ => 1001)
          > calculate_fitness 100 1 [("calories", ⟨0, 0, 1000⟩)] (fun _ => 1000)) := by
  refine ⟨by norm_num, by norm_num, by norm_num, by norm_num, ?_⟩
  show ¬ ((100 : ℚ) * (1001 - 1000) + 0 > 1 * |(1000 : ℚ) - 0| + 0)
  norm_num

/-- C2 amended: an out-of-bounds vector `A` outranks (scores worse than)
every in-bounds vector `B` exactly when `W_hard` times `A`'s
out-of-bounds deviation exceeds `W_soft` times the summed maximal
in-bounds deviations — a fixed `W_hard`/`W_soft` margin alone does not
suffice for arbitrarily small deviations. -/
theorem bounds_ordering_amended (Wh Ws : ℚ) (cs : ConstraintSet)
    (A B : NutrientVector) (hWh : 0 ≤ Wh) (hWs : 0 ≤ Ws)
    (hvalid : ∀ nc ∈ cs, nc.2.minimum ≤ nc.2.target ∧ nc.2.target ≤ nc.2.maximum)
    (hB : ∀ nc ∈ cs, nc.2.minimum ≤ B nc.1 ∧ B nc.1 ≤ nc.2.maximum)
    (nc : String × NutrientConstraint) (hmem : nc ∈ cs)
    (hout : (A nc.1 < nc.2.minimum
              ∧ softPenaltyBound Ws cs < Wh * (nc.2.minimum - A nc.1))
          ∨ (A nc.1 > nc.2.maximum
              ∧ softPenaltyBound Ws cs < Wh * (A nc.1 - nc.2.maximum))) :
    calculate_fitness Wh Ws cs A > calculate_fitness Wh Ws cs B := by
  have hBle := @fitness_le_soft_bound Wh Ws hWs cs B hB
  have hAge := single_penalty_le_fitness hWh hWs cs A hmem
  have hv := hvalid nc hmem
  rcases hout with ⟨hlt, hmargin⟩ | ⟨hgt, hmargin⟩
  · have hpen : penalty Wh Ws nc.2 (A nc.1) = Wh * (nc.2.minimum - A nc.1) := by
      unfold penalty
      rw [if_pos hlt]
    linarith
  · have hpen : penalty Wh Ws nc.2 (A nc.1) = Wh * (A nc.1 - nc.2.maximum) := by
      unfold penalty
      rw [if_neg (by linarith), if_pos hgt]
    linarith

/-- C2 amended witness: concrete constraint band `[100, 200]` with
target `150`, `A` at `300`, `B` at `160`. -/
theorem bounds_ordering_amended_witness :
    calculate_fitness 10 1 [("calories", ⟨100, 150, 200⟩)] (fun _ => 300)
      > calculate_fitness 10 1 [("calories", ⟨100, 150, 200⟩)] (fun _ => 160) :=
  bounds_ordering_amended 10 1 [("calories", ⟨100, 150, 200⟩)]
    (fun _ => 300) (fun _ => 160) (by norm_num) (by norm_num)
    (by intro nc hmem; simp at hmem; rw [hmem]; norm_num)
    (by intro nc hmem; simp at hmem; rw [hmem]; norm_num)
    ("calories", ⟨100, 150, 200⟩) (by simp)
    (Or.inr (by constructor <;> (show _ < _; norm_num [softPenaltyBound, maxSoftDeviation])))

/-- Modelled from the spec: the Nutrient Aggregator (§4.1) — for each
`(food, quantity)` pair look up the `FoodRecord` and accumulate
`quantity × per-unit value`; `none` models the `UnknownFoodError` raised
when a referenced identifier is absent from the catalog. -/
def aggregate (catalog : Catalog) : MealComposition → Option NutrientVector
  | [] => some (fun _ => 0)
  | fq :: rest => do
    let nv ← aggregate catalog rest
    let prof ← catalog.lookup fq.1
    pure (fun n => nv n + fq.2 * prof n)

/-- Modelled from the spec: the small positive minimum quantity at which
perturbation is floored and additions start (§4.3); a tunable, any
positive value works. -/
def minQty : ℚ := 1/10

/-- Modelled from the spec: the four atomic edits of the Neighbor
Generator (§4.3); the seeded random choice is modelled as an explicit
stream of `Edit` values supplied to the driver (§9 prescribes an
explicit seeded generator parameter). -/
inductive Edit where
  | perturb (food : String) (delta : ℚ)
  | add (food : String) (qty : ℚ)
  | remove (food : String)
  | substitute (oldFood newFood : String) (qty : ℚ)

/-- Modelled from the spec: `neighbor_of` (§4.3, named in §9) — applies
one atomic edit when its side conditions hold, otherwise returns the
input unchanged; guards enforce that the result is never empty and
never references a food absent from the catalog. -/
def neighbor_of (catalog : Catalog) (comp : MealComposition) : Edit → MealComposition
  | .perturb f d =>
      if (comp.lookup f).isSome then
        comp.map (fun fq => if fq.1 = f then (fq.1, max (fq.2 + d) minQty) else fq)
      else comp
  | .add f q =>
      if (catalog.lookup f).isSome ∧ (comp.lookup f).isNone then
        (f, max q minQty) :: comp
      else comp
  | .remove f =>
      if (comp.lookup f).isSome ∧ comp.filter (fun fq => fq.1 ≠ f) ≠ [] then
        comp.filter (fun fq => fq.1 ≠ f)
      else comp
  | .substitute fOld fNew q =>
      if (comp.lookup fOld).isSome ∧ (catalog.lookup fNew).isSome
          ∧ (comp.lookup fNew).isNone then
        (fNew, max q minQty) :: comp.filter (fun fq => fq.1 ≠ fOld)
      else comp

/-- Modelled from the spec: the `NutritionOptimizer` (named after the
notebook's `NutritionOptimizer(food_db, profile)`) — holds the read-only
catalog, the constraint set, and the two fitness weights exposed as
configuration (§9). -/
structure NutritionOptimizer where
  food_db : Catalog
  constraints : ConstraintSet
  W_hard : ℚ
  W_soft : ℚ

/-- Modelled from the spec: the Search Driver's running state (§4.4) —
current composition, current fitness, iterations performed, and the
count of consecutive non-improving iterations for the patience limit. -/
structure SearchState where
  comp : MealComposition
  fitness : ℚ
  iters : ℕ
  noImprove : ℕ

/-- Modelled from the spec: one search iteration (§4.4) — generate one
neighbor, aggregate and evaluate it; accept only on strictly better
fitness, otherwise retain the current state; a candidate whose
aggregation fails (unknown food) is discarded as non-viable (§4.1, §7). -/
def searchStep (O : NutritionOptimizer) (gen : ℕ → Edit) (st : SearchState) : SearchState :=
  match aggregate O.food_db (neighbor_of O.food_db st.comp (gen st.iters)) with
  | none => ⟨st.comp, st.fitness, st.iters + 1, st.noImprove + 1⟩
  | some nv =>
      if calculate_fitness O.W_hard O.W_soft O.constraints nv < st.fitness then
        ⟨neighbor_of O.food_db st.comp (gen st.iters),
          calculate_fitness O.W_hard O.W_soft O.constraints nv, st.iters + 1, 0⟩
      else ⟨st.comp, st.fitness, st.iters + 1, st.noImprove + 1⟩

/-- Modelled from the spec: the optional patience limit — `true` when
the caller-supplied bound on consecutive non-improving iterations has
been reached (§4.4 (c)). -/
def patienceExhausted : Option ℕ → ℕ → Bool
  | none, _ => false
  | some k, n => k ≤ n

/-- Modelled from the spec: the hill-climbing loop (§4.4, named after
the notebook's `hill_climb_meal`) — per iteration the termination
conditions are checked in priority order: iteration cap (the fuel),
zero fitness, patience; otherwise one `searchStep` runs. -/
def hill_climb_meal (O : NutritionOptimizer) (gen : ℕ → Edit)
    (patience : Option ℕ) : ℕ → SearchState → SearchState
  | 0, st => st
  | fuel + 1, st =>
      if st.fitness = 0 then st
      else if patienceExhausted patience st.noImprove then st
      else hill_climb_meal O gen patience fuel (searchStep O gen st)

/-- Modelled from the spec: the Change Reporter's delta statements
(§4.5) — one entry per food whose quantity increased or decreased, or
that was added or removed. -/
inductive Change where
  | increased (food : String) (oldQty newQty : ℚ)
  | decreased (food : String) (oldQty newQty : ℚ)
  | added (food : String) (qty : ℚ)
  | removed (food : String)
deriving DecidableEq, Repr

/-- Modelled from the spec: `diff` (§4.5, named in §9) — the ordered
list of changes between the input and output compositions; an identical
pair yields an empty list, and it never fails. -/
def diff (start finish : MealComposition) : List Change :=
  (start.foldr (fun fq acc =>
    match finish.lookup fq.1 with
    | none => Change.removed fq.1 :: acc
    | some q' =>
        if fq.2 < q' then Change.increased fq.1 fq.2 q' :: acc
        else if q' < fq.2 then Change.decreased fq.1 fq.2 q' :: acc
        else acc) [])
  ++ finish.foldr (fun fq acc =>
      if (start.lookup fq.1).isNone then Change.added fq.1 fq.2 :: acc else acc) []

/-- Modelled from the spec: `SearchResult` (§3) — final composition,
its nutrient vector, its fitness score, and the ordered change report. -/
structure SearchResult where
  composition : MealComposition
  nutrients : NutrientVector
  fitness : ℚ
  changes : List Change

/-- Modelled from the spec: the two typed entry failures (§7). -/
inductive OptError where
  | invalidConstraint
  | unknownFood
deriving DecidableEq, Repr

/-- Modelled from the spec: entry validation of the constraint chain
`minimum ≤ target ≤ maximum` for every constraint (§3, §7). -/
def constraintsValid (cs : ConstraintSet) : Bool :=
  cs.all (fun nc => decide (nc.2.minimum ≤ nc.2.target ∧ nc.2.target ≤ nc.2.maximum))

/-- Modelled from the spec: the optimization call `optimize_meal_plan`
(named after the README's `optimizer.optimize_meal_plan`) — validates
constraints and the initial composition at entry (§7), runs the
hill-climbing driver, and returns the `SearchResult` (§6). -/
def optimize_meal_plan (O : NutritionOptimizer) (gen : ℕ → Edit)
    (maxIterations : ℕ) (patience : Option ℕ) (start : MealComposition) :
    Except OptError SearchResult :=
  if ¬ constraintsValid O.constraints then .error .invalidConstraint
  else
    match aggregate O.food_db start with
    | none => .error .unknownFood
    | some nv0 =>
        let st0 : SearchState :=
          ⟨start, calculate_fitness O.W_hard O.W_soft O.constraints nv0, 0, 0⟩
        let stF := hill_climb_meal O gen patience maxIterations st0
        match aggregate O.food_db stF.comp with
        | none => .error .unknownFood
        | some nvF =>
            .ok ⟨stF.comp, nvF, calculate_fitness O.W_hard O.W_soft O.constraints nvF,
              diff start stF.comp⟩

lemma searchStep_fitness_le (O : NutritionOptimizer) (gen : ℕ → Edit) (st : SearchState) :
    (searchStep O gen st).fitness ≤ st.fitness := by
  unfold searchStep
  cases h : aggregate O.food_db (neighbor_of O.food_db st.comp (gen st.iters)) with
  | none => exact le_refl _
  | some nv =>
      dsimp only
      split
      · next hlt => exact le_of_lt hlt
      · exact le_refl _

lemma searchStep_reject (O : NutritionOptimizer) (gen : ℕ → Edit) (st : SearchState)
    (nv : NutrientVector)
    (hagg : aggregate O.food_db (neighbor_of O.food_db st.comp (gen st.iters)) = some nv)
    (hnot : ¬ calculate_fitness O.W_hard O.W_soft O.constraints nv < st.fitness) :
    (searchStep O gen st).comp = st.comp ∧ (searchStep O gen st).fitness = st.fitness := by
  unfold searchStep
  rw [hagg]
  dsimp only
  rw [if_neg hnot]
  exact ⟨rfl, rfl⟩

lemma searchStep_accept (O : NutritionOptimizer) (gen : ℕ → Edit) (st : SearchState)
    (nv : NutrientVector)
    (hagg : aggregate O.food_db (neighbor_of O.food_db st.comp (gen st.iters)) = some nv)
    (hlt : calculate_fitness O.W_hard O.W_soft O.constraints nv < st.fitness) :
    (searchStep O gen st).comp = neighbor_of O.food_db st.comp (gen st.iters)
    ∧ (searchStep O gen st).fitness = calculate_fitness O.W_hard O.W_soft O.constraints nv := by
  unfold searchStep
  rw [hagg]
  dsimp only
  rw [if_pos hlt]
  exact ⟨rfl, rfl⟩

lemma hill_climb_fitness_le (O : NutritionOptimizer) (gen : ℕ → Edit)
    (patience : Option ℕ) :
    ∀ fuel st, (hill_climb_meal O gen patience fuel st).fitness ≤ st.fitness := by
  intro fuel
  induction fuel with
  | zero => intro st; exact le_refl _
  | succ n ih =>
      intro st
      unfold hill_climb_meal
      split
      · exact le_refl _
      · split
        · exact le_refl _
        · exact le_trans (ih (searchStep O gen st)) (searchStep_fitness_le O gen st)

/-- C3: the Search Driver accepts a neighbor only on strictly lower
fitness — aggregated candidates that are not strictly better leave the
current composition and fitness unchanged, strictly better ones are
adopted — so every step's fitness is ≤ the previous one and the final
fitness of any run is ≤ the initial fitness. -/
theorem search_driver_monotone (O : NutritionOptimizer) (gen : ℕ → Edit)
    (patience : Option ℕ) :
    (∀ st : SearchState, (searchStep O gen st).fitness ≤ st.fitness)
    ∧ (∀ st nv,
        aggregate O.food_db (neighbor_of O.food_db st.comp (gen st.iters)) = some nv →
        ¬ calculate_fitness O.W_hard O.W_soft O.constraints nv < st.fitness →
        (searchStep O gen st).comp = st.comp ∧ (searchStep O gen st).fitness = st.fitness)
    ∧ (∀ st nv,
        aggregate O.food_db (neighbor_of O.food_db st.comp (gen st.iters)) = some nv →
        calculate_fitness O.W_hard O.W_soft O.constraints nv < st.fitness →
        (searchStep O gen st).comp = neighbor_of O.food_db st.comp (gen st.iters)
        ∧ (searchStep O gen st).fitness
            = calculate_fitness O.W_hard O.W_soft O.constraints nv)
    ∧ (∀ fuel st, (hill_climb_meal O gen patience fuel st).fitness ≤ st.fitness) :=
  ⟨searchStep_fitness_le O gen, searchStep_reject O gen, searchStep_accept O gen,
    hill_climb_fitness_le O gen patience⟩

/-- C3 witness: monotone non-increase at a concrete run. -/
theorem search_driver_monotone_witness :
    (hill_climb_meal ⟨[("a", fun _ => 1)], [("calories", ⟨100, 150, 200⟩)], 10, 1⟩
        (fun _ => Edit.perturb "a" 1) none 5 ⟨[("a", 1)], 40, 0, 0⟩).fitness ≤ 40 :=
  (search_driver_monotone ⟨[("a", fun _ => 1)], [("calories", ⟨100, 150, 200⟩)], 10, 1⟩
    (fun _ => Edit.perturb "a" 1) none).2.2.2 5 ⟨[("a", 1)], 40, 0, 0⟩

lemma constraintsValid_eq_false_of_violation {cs : ConstraintSet}
    (h : ∃ nc ∈ cs, nc.2.target < nc.2.minimum ∨ nc.2.maximum < nc.2.target) :
    constraintsValid cs = false := by
  rcases h with ⟨nc, hmem, hviol⟩
  unfold constraintsValid
  rw [List.all_eq_false]
  refine ⟨nc, hmem, ?_⟩
  simp only [decide_eq_true_eq, Bool.not_eq_true]
  rcases hviol with h1 | h1
  · intro hc
    exact absurd hc.1 (not_le.mpr h1)
  · intro hc
    exact absurd hc.2 (not_le.mpr h1)

/-- C4: a constraint set containing a `NutrientConstraint` with
`minimum > target` or `target > maximum` makes the optimization call
fail with the configuration error at entry, for every generator stream,
iteration budget, patience setting and initial composition — so no
search iteration runs, no candidate is generated, and the constraint is
never clamped. -/
theorem invalid_constraint_fatal_at_entry (O : NutritionOptimizer) (gen : ℕ → Edit)
    (maxIterations : ℕ) (patience : Option ℕ) (start : MealComposition)
    (h : ∃ nc ∈ O.constraints, nc.2.target < nc.2.minimum ∨ nc.2.maximum < nc.2.target) :
    optimize_meal_plan O gen maxIterations patience start = .error .invalidConstraint := by
  unfold optimize_meal_plan
  rw [if_pos]
  rw [constraintsValid_eq_false_of_violation h]
  exact Bool.false_ne_true

/-- C4 witness: the spec's concrete scenario `minimum = 200 > maximum = 100`
(with target 150) is rejected at entry. -/
theorem invalid_constraint_fatal_at_entry_witness :
    optimize_meal_plan ⟨[("a", fun _ => 1)], [("calories", ⟨200, 150, 100⟩)], 10, 1⟩
        (fun _ => Edit.perturb "a" 1) 100 none [("a", 1)]
      = .error .invalidConstraint :=
  invalid_constraint_fatal_at_entry _ _ 100 none [("a", 1)]
    ⟨("calories", ⟨200, 150, 100⟩), by simp, Or.inl (by norm_num)⟩

lemma aggregate_eq_none_iff (catalog : Catalog) (comp : MealComposition) :
    aggregate catalog comp = none ↔ ∃ fq ∈ comp, catalog.lookup fq.1 = none := by
  induction comp with
  | nil => simp [aggregate]
  | cons fq rest ih =>
      constructor
      · intro h
        cases h1 : aggregate catalog rest with
        | none =>
            rcases ih.mp h1 with ⟨fq', hm, hl⟩
            exact ⟨fq', List.mem_cons_of_mem _ hm, hl⟩
        | some nv =>
            cases h2 : catalog.lookup fq.1 with
            | none => exact ⟨fq, List.mem_cons_self _ _, h2⟩
            | some prof =>
                rw [aggregate, h1, h2] at h
                simp at h
      · rintro ⟨fq', hm, hl⟩
        rcases List.mem_cons.mp hm with rfl | hm'
        · rw [aggregate, hl]
          cases aggregate catalog rest <;> rfl
        · rw [aggregate, ih.mpr ⟨fq', hm', hl⟩]
          rfl

/-- C5: a food identifier in the initial composition that is absent
from the catalog fails the call at entry with the unknown-food error
(given constraints that pass validation), while a generated candidate
whose aggregation fails mid-search is merely discarded — the step keeps
the current composition and fitness and the run continues to the next
iteration. -/
theorem unknown_food_entry_vs_midsearch (O : NutritionOptimizer) (gen : ℕ → Edit)
    (maxIterations : ℕ) (patience : Option ℕ) (start : MealComposition)
    (hvalid : constraintsValid O.constraints = true)
    (hghost : ∃ fq ∈ start, O.food_db.lookup fq.1 = none) :
    optimize_meal_plan O gen maxIterations patience start = .error .unknownFood
    ∧ (∀ st : SearchState,
        aggregate O.food_db (neighbor_of O.food_db st.comp (gen st.iters)) = none →
        (searchStep O gen st).comp = st.comp
        ∧ (searchStep O gen st).fitness = st.fitness
        ∧ (searchStep O gen st).iters = st.iters + 1) := by
  constructor
  · unfold optimize_meal_plan
    rw [if_neg (by rw [hvalid]; exact fun hc => hc rfl)]
    rw [(aggregate_eq_none_iff O.food_db start).mpr hghost]
  · intro st hagg
    unfold searchStep
    rw [hagg]
    exact ⟨rfl, rfl, rfl⟩

/-- C5 witness: the spec's `"ghost_food"` scenario at entry, and a
mid-search unknown-food candidate being discarded. -/
theorem unknown_food_entry_vs_midsearch_witness :
    optimize_meal_plan ⟨[("a", fun _ => 1)], [("calories", ⟨100, 150, 200⟩)], 10, 1⟩
        (fun _ => Edit.perturb "ghost_food" 1) 100 none [("ghost_food", 1)]
      = .error .unknownFood :=
  (unknown_food_entry_vs_midsearch
    ⟨[("a", fun _ => 1)], [("calories", ⟨100, 150, 200⟩)], 10, 1⟩
    (fun _ => Edit.perturb "ghost_food" 1) 100 none [("ghost_food", 1)]
    (by decide)
    ⟨("ghost_food", 1), by simp, rfl⟩).1

/-- Modelled from the spec: validity of a candidate composition (§4.3,
§8) — it has at least one food and every referenced food identifier
exists in the catalog. -/
def validComp (catalog : Catalog) (comp : MealComposition) : Prop :=
  comp ≠ [] ∧ ∀ fq ∈ comp, (catalog.lookup fq.1).isSome = true

lemma neighbor_of_valid (catalog : Catalog) (comp : MealComposition) (e : Edit)
    (h : validComp catalog comp) : validComp catalog (neighbor_of catalog comp e) := by
  obtain ⟨hne, hsub⟩ := h
  cases e with
  | perturb f d =>
      simp only [neighbor_of]
      split
      · refine ⟨by simpa using hne, ?_⟩
        intro fq hmem
        rcases List.mem_map.mp hmem with ⟨fq', hmem', rfl⟩
        by_cases hf : fq'.1 = f
        · rw [if_pos hf]
          exact hsub fq' hmem'
        · rw [if_neg hf]
          exact hsub fq' hmem'
      · exact ⟨hne, hsub⟩
  | add f q =>
      simp only [neighbor_of]
      split
      · next hguard =>
          refine ⟨by simp, ?_⟩
          intro fq hmem
          rcases List.mem_cons.mp hmem with rfl | hmem'
          · exact hguard.1
          · exact hsub fq hmem'
      · exact ⟨hne, hsub⟩
  | remove f =>
      simp only [neighbor_of]
      split
      · next hguard =>
          exact ⟨hguard.2, fun fq hmem => hsub fq (List.mem_of_mem_filter hmem)⟩
      · exact ⟨hne, hsub⟩
  | substitute fOld fNew q =>
      simp only [neighbor_of]
      split
      · next hguard =>
          refine ⟨by simp, ?_⟩
          intro fq hmem
          rcases List.mem_cons.mp hmem with rfl | hmem'
          · exact hguard.2.1
          · exact hsub fq (List.mem_of_mem_filter hmem')
      · exact ⟨hne, hsub⟩

lemma searchStep_valid (O : NutritionOptimizer) (gen : ℕ → Edit) (st : SearchState)
    (h : validComp O.food_db st.comp) :
    validComp O.food_db (searchStep O gen st).comp := by
  unfold searchStep
  cases hagg : aggregate O.food_db (neighbor_of O.food_db st.comp (gen st.iters)) with
  | none => exact h
  | some nv =>
      dsimp only
      split
      · exact neighbor_of_valid O.food_db st.comp (gen st.iters) h
      · exact h

lemma hill_climb_valid (O : NutritionOptimizer) (gen : ℕ → Edit) (patience : Option ℕ) :
    ∀ fuel st, validComp O.food_db st.comp →
      validComp O.food_db (hill_climb_meal O gen patience fuel st).comp := by
  intro fuel
  induction fuel with
  | zero => intro st h; exact h
  | succ n ih =>
      intro st h
      unfold hill_climb_meal
      split
      · exact h
      · split
        · exact h
        · exact ih (searchStep O gen st) (searchStep_valid O gen st h)

/-- C6: every candidate composition the Neighbor Generator produces from
a valid current composition is valid — nonempty and drawing only on
catalog foods — for each of the four edit kinds; consequently the Search
Driver's state stays valid across a whole run, so every candidate
generated during a run is valid. -/
theorem neighbor_candidates_valid (catalog : Catalog) :
    (∀ comp e, validComp catalog comp → validComp catalog (neighbor_of catalog comp e))
    ∧ (∀ (O : NutritionOptimizer) (gen : ℕ → Edit) (st : SearchState),
        O.food_db = catalog → validComp catalog st.comp →
        validComp catalog (neighbor_of catalog st.comp (gen st.iters))
        ∧ validComp catalog (searchStep O gen st).comp)
    ∧ (∀ (O : NutritionOptimizer) (gen : ℕ → Edit) (patience : Option ℕ) fuel st,
        O.food_db = catalog → validComp catalog st.comp →
        validComp catalog (hill_climb_meal O gen patience fuel st).comp) := by
  refine ⟨neighbor_of_valid catalog, ?_, ?_⟩
  · intro O gen st hO h
    subst hO
    exact ⟨neighbor_of_valid O.food_db st.comp (gen st.iters) h, searchStep_valid O gen st h⟩
  · intro O gen patience fuel st hO h
    subst hO
    exact hill_climb_valid O gen patience fuel st h

/-- C6 witness: a remove edit on a two-food composition keeps the
candidate nonempty and catalog-contained. -/
theorem neighbor_candidates_valid_witness :
    validComp [("a", fun _ => 1), ("b", fun _ => 2)]
      (neighbor_of [("a", fun _ => 1), ("b", fun _ => 2)] [("a", 1), ("b", 2)]
        (Edit.remove "a")) :=
  (neighbor_candidates_valid [("a", fun _ => 1), ("b", fun _ => 2)]).1
    [("a", 1), ("b", 2)] (Edit.remove "a")
    ⟨by simp, by intro fq hmem; rcases List.mem_cons.mp hmem with rfl | hmem' <;> simp_all⟩

lemma hill_climb_zero_fitness (O : NutritionOptimizer) (gen : ℕ → Edit)
    (patience : Option ℕ) :
    ∀ fuel st, st.fitness = 0 → hill_climb_meal O gen patience fuel st = st := by
  intro fuel st h
  cases fuel with
  | zero => rfl
  | succ n =>
      unfold hill_climb_meal
      rw [if_pos h]

/-- C8: whenever the current fitness is 0 the Search Driver stops
immediately — for any remaining iteration budget the loop returns the
zero-fitness state unchanged and advances its iteration counter no
further, so a run that encounters an exact-target composition terminates
without spending its remaining iteration cap. -/
theorem zero_fitness_stops_immediately (O : NutritionOptimizer) (gen : ℕ → Edit)
    (patience : Option ℕ) :
    (∀ fuel st, st.fitness = 0 → hill_climb_meal O gen patience fuel st = st)
    ∧ (∀ fuel st, st.fitness = 0 →
        (hill_climb_meal O gen patience fuel st).iters = st.iters) := by
  refine ⟨hill_climb_zero_fitness O gen patience, ?_⟩
  intro fuel st h
  rw [hill_climb_zero_fitness O gen patience fuel st h]

/-- C8 witness: a zero-fitness state with 7 budgeted iterations left is
returned untouched. -/
theorem zero_fitness_stops_immediately_witness :
    hill_climb_meal ⟨[("a", fun _ => 1)], [("calories", ⟨100, 150, 200⟩)], 10, 1⟩
        (fun _ => Edit.perturb "a" 1) none 7 ⟨[("a", 1)], 0, 3, 1⟩
      = ⟨[("a", 1)], 0, 3, 1⟩ :=
  (zero_fitness_stops_immediately ⟨[("a", fun _ => 1)], [("calories", ⟨100, 150, 200⟩)], 10, 1⟩
    (fun _ => Edit.perturb "a" 1) none).1 7 ⟨[("a", 1)], 0, 3, 1⟩ rfl

/-- C7 counterexample: an optimization call with an empty constraint set
whose initial composition references the catalog-absent food
`"ghost_food"` raises the unknown-food error instead of returning the
input with fitness 0 — the claim's "no error is raised" fails. -/
theorem empty_constraints_counterexample :
    optimize_meal_plan ⟨[], [], 10, 1⟩ (fun _ => Edit.remove "x") 100 none
        [("ghost_food", 1)]
      = .error .unknownFood := rfl

/-- C7 amended: for every optimization call with an empty constraint set
whose initial composition passes entry validation (every referenced food
is in the catalog), the initial fitness is 0, the driver performs no
search iteration, and the call returns the input composition unchanged
with fitness 0 and no error. -/
theorem empty_constraints_noop (O : NutritionOptimizer) (gen : ℕ → Edit)
    (maxIterations : ℕ) (patience : Option ℕ) (start : MealComposition)
    (nv0 : NutrientVector) (hcs : O.constraints = [])
    (hagg : aggregate O.food_db start = some nv0) :
    optimize_meal_plan O gen maxIterations patience start
      = .ok ⟨start, nv0, 0, diff start start⟩
    ∧ (hill_climb_meal O gen patience maxIterations
        ⟨start, calculate_fitness O.W_hard O.W_soft O.constraints nv0, 0, 0⟩).iters = 0 := by
  have hfit : calculate_fitness O.W_hard O.W_soft O.constraints nv0 = 0 := by
    rw [hcs]
    rfl
  have hrun := hill_climb_zero_fitness O gen patience maxIterations
    ⟨start, calculate_fitness O.W_hard O.W_soft O.constraints nv0, 0, 0⟩ hfit
  constructor
  · unfold optimize_meal_plan
    rw [if_neg (by rw [hcs]; exact fun hc => hc rfl)]
    rw [hagg]
    dsimp only
    rw [hrun]
    dsimp only
    rw [hagg]
    dsimp only
    rw [hfit]
  · rw [hrun]

/-- C7 amended witness: a concrete empty-constraint call is a no-op. -/
theorem empty_constraints_noop_witness :
    optimize_meal_plan ⟨[("a", fun _ => 2)], [], 10, 1⟩ (fun _ => Edit.remove "a")
        100 none [("a", 3)]
      = .ok ⟨[("a", 3)], fun n => (fun _ => (0 : ℚ)) n + 3 * (fun _ => (2 : ℚ)) n, 0,
          diff [("a", 3)] [("a", 3)]⟩ :=
  (empty_constraints_noop ⟨[("a", fun _ => 2)], [], 10, 1⟩ (fun _ => Edit.remove "a")
    100 none [("a", 3)] (fun n => (fun _ => (0 : ℚ)) n + 3 * (fun _ => (2 : ℚ)) n)
    rfl rfl).1

/-- C9: every optimization call that proceeds past entry validation
returns a `SearchResult` whose four components cohere — the final
composition, the nutrient vector obtained by aggregating exactly that
composition, the fitness score of that vector, and the Change Reporter's
delta list relative to the input composition. -/
theorem search_result_components (O : NutritionOptimizer) (gen : ℕ → Edit)
    (maxIterations : ℕ) (patience : Option ℕ) (start : MealComposition)
    (r : SearchResult)
    (h : optimize_meal_plan O gen maxIterations patience start = .ok r) :
    aggregate O.food_db r.composition = some r.nutrients
    ∧ r.fitness = calculate_fitness O.W_hard O.W_soft O.constraints r.nutrients
    ∧ r.changes = diff start r.composition := by
  unfold optimize_meal_plan at h
  split at h
  · exact absurd h (by simp)
  · split at h
    · exact absurd h (by simp)
    · next nv0 heq0 =>
        dsimp only at h
        split at h
        · exact absurd h (by simp)
        · next nvF heqF =>
            rw [Except.ok.injEq] at h
            subst h
            exact ⟨heqF, rfl, rfl⟩

/-- Concrete successful call used to witness C9: a one-food composition,
one tracked nutrient, zero search budget. -/
def exampleCall : Except OptError SearchResult :=
  optimize_meal_plan ⟨[("oats", fun _ => 100)], [("calories", ⟨50, 100, 150⟩)], 10, 1⟩
    (fun _ => Edit.perturb "oats" 1) 0 none [("oats", 1)]

/-- The `SearchResult` payload of `exampleCall`. -/
def exampleResult : SearchResult :=
  match exampleCall with
  | .ok r => r
  | .error _ => ⟨[], fun _ => 0, 0, []⟩

/-- C9 witness: the concrete call succeeds and its result components
cohere. -/
theorem search_result_components_witness :
    optimize_meal_plan ⟨[("oats", fun _ => 100)], [("calories", ⟨50, 100, 150⟩)], 10, 1⟩
        (fun _ => Edit.perturb "oats" 1) 0 none [("oats", 1)] = .ok exampleResult
    ∧ (aggregate [("oats", fun _ => 100)] exampleResult.composition
          = some exampleResult.nutrients
      ∧ exampleResult.fitness
          = calculate_fitness 10 1 [("calories", ⟨50, 100, 150⟩)] exampleResult.nutrients
      ∧ exampleResult.changes = diff [("oats", 1)] exampleResult.composition) :=
  ⟨rfl, search_result_components
    ⟨[("oats", fun _ => 100)], [("calories", ⟨50, 100, 150⟩)], 10, 1⟩
    (fun _ => Edit.perturb "oats" 1) 0 none [("oats", 1)] exampleResult rfl⟩

/-- Modelled from the notebook call site (`nbs/integrated_demo.ipynb`,
`ConstraintSet(calories=…, protein=…, carbohydrates=…, fat=…)`) and the
README ("Considers all macronutrients (protein, carbs, fat) and
calories"): the implementation's `ConstraintSet` is a fixed record with
exactly those four constraint fields, not an open mapping. -/
structure ConstraintSetImpl where
  calories : NutrientConstraint
  protein : NutrientConstraint
  carbohydrates : NutrientConstraint
  fat : NutrientConstraint

/-- Fitness over the implementation's fixed four-field constraint set:
the per-nutrient penalties of exactly calories, protein, carbohydrates
and fat. -/
def calculate_fitness_impl (Wh Ws : ℚ) (c : ConstraintSetImpl) (nv : NutrientVector) : ℚ :=
  penalty Wh Ws c.calories (nv "calories") + penalty Wh Ws c.protein (nv "protein")
    + penalty Wh Ws c.carbohydrates (nv "carbohydrates") + penalty Wh Ws c.fat (nv "fat")

/-- The spec-side view of the implementation's fixed constraint record:
the open mapping holding exactly the four tracked nutrients. -/
def toConstraintSet (c : ConstraintSetImpl) : ConstraintSet :=
  [("calories", c.calories), ("protein", c.protein),
    ("carbohydrates", c.carbohydrates), ("fat", c.fat)]

/-- C10: the implementation's constraint set is the spec's open mapping
pinned to exactly the four nutrients calories, protein, carbohydrates
and fat — its fitness agrees with the spec evaluator on that four-entry
mapping, the tracked-nutrient names are exactly those four, and the
fitness depends on no other nutrient of the vector. -/
theorem fixed_four_nutrients (Wh Ws : ℚ) (c : ConstraintSetImpl) (nv : NutrientVector) :
    calculate_fitness_impl Wh Ws c nv = calculate_fitness Wh Ws (toConstraintSet c) nv
    ∧ (toConstraintSet c).map Prod.fst = ["calories", "protein", "carbohydrates", "fat"]
    ∧ (∀ nv' : NutrientVector,
        nv "calories" = nv' "calories" → nv "protein" = nv' "protein" →
        nv "carbohydrates" = nv' "carbohydrates" → nv "fat" = nv' "fat" →
        calculate_fitness_impl Wh Ws c nv = calculate_fitness_impl Wh Ws c nv') := by
  refine ⟨?_, rfl, ?_⟩
  · simp only [calculate_fitness_impl, calculate_fitness, toConstraintSet, List.map_cons,
      List.map_nil, List.sum_cons, List.sum_nil]
    ring
  · intro nv' h1 h2 h3 h4
    unfold calculate_fitness_impl
    rw [h1, h2, h3, h4]

/-- C10 witness: agreement at a concrete fixed constraint record and
vector. -/
theorem fixed_four_nutrients_witness :
    calculate_fitness_impl 10 1 ⟨⟨100, 150, 200⟩, ⟨10, 20, 30⟩, ⟨50, 60, 70⟩, ⟨10, 20, 30⟩⟩
        (fun _ => 40)
      = calculate_fitness 10 1
          (toConstraintSet ⟨⟨100, 150, 200⟩, ⟨10, 20, 30⟩, ⟨50, 60, 70⟩, ⟨10, 20, 30⟩⟩)
          (fun _ => 40) :=
  (fixed_four_nutrients 10 1 ⟨⟨100, 150, 200⟩, ⟨10, 20, 30⟩, ⟨50, 60, 70⟩, ⟨10, 20, 30⟩⟩
    (fun _ => 40)).1

end MealPlanner
